import Mathlib

/-!
Verification of the epub metadata-extraction engine (`server/src/epub.ts`-style
module concatenated into `src/server/src/index.ts`: `safeJoin`, `parseOpf`,
`extractChapters`, `mergeChaptersWithSpine`, `extractCoverHref`,
`detectVertical` and their helpers).

The embedding models:
  * JavaScript values produced by the XML parser (`fast-xml-parser` with
    `ignoreAttributes:false`) as the type `JVal` (null/undefined collapsed to
    `JVal.null`, since the code only distinguishes them through `??` and
    truthiness, which treat them alike);
  * the filesystem as an association list from absolute paths to file
    contents (`FS`); `fs.readFile`/`fssync.readFileSync` become `readFS?`,
    `fssync.existsSync` becomes `existsFS`;
  * the platform XML parser as an explicit function parameter
    `xp : String → JVal` (the spec treats the markup parser as an external,
    platform-supplied dependency);
  * thrown exceptions as `Except Err`; code regions wrapped in
    `try { ... } catch {}` in the source are embedded with the caught
    failures collapsed to their fallback values.

Iterative JS string/regex scanning is embedded by structural recursion on
character lists, with an explicit fuel argument (always instantiated with a
sufficient bound) where the recursion jumps over consumed input.
-/

/-! ## JavaScript values (output shape of the XML parser) -/

mutual

inductive JVal where
  | null
  | str (s : String)
  | num (n : Int)
  | arr (xs : JArr)
  | obj (fields : JObj)

inductive JArr where
  | nil
  | cons (hd : JVal) (tl : JArr)

inductive JObj where
  | nil
  | cons (k : String) (v : JVal) (tl : JObj)

end

-- Depth measure used as fuel for recursion over `JVal` trees.
mutual

def jsize : JVal → Nat
  | .null => 1
  | .str _ => 1
  | .num _ => 1
  | .arr xs => jsizeA xs + 1
  | .obj fs => jsizeO fs + 1

def jsizeA : JArr → Nat
  | .nil => 1
  | .cons x tl => max (jsize x) (jsizeA tl)

def jsizeO : JObj → Nat
  | .nil => 1
  | .cons _ v tl => max (jsize v) (jsizeO tl)

end

def JArr.toList : JArr → List JVal
  | .nil => []
  | .cons x tl => x :: tl.toList

/-- Convenience constructor: an object from a list of fields. -/
def jobj (l : List (String × JVal)) : JVal :=
  .obj (l.foldr (fun p acc => .cons p.1 p.2 acc) .nil)

/-- Convenience constructor: an array from a list of values. -/
def jarr (l : List JVal) : JVal :=
  .arr (l.foldr .cons .nil)

/-- JS property lookup on an object's field list (`undefined`/absent ↦ `null`). -/
def jGetO : JObj → String → JVal
  | .nil, _ => .null
  | .cons k v tl, key => if k = key then v else jGetO tl key

/-- JS optional-chaining property access `x?.[key]`: `undefined` on
non-objects, the field value (or `undefined`) on objects. -/
def JVal.get : JVal → String → JVal
  | .obj fs, k => jGetO fs k
  | _, _ => .null

def JVal.isNull : JVal → Bool
  | .null => true
  | _ => false

/-- JS nullish coalescing `a ?? b`. -/
def jOr (a b : JVal) : JVal :=
  if a.isNull then b else a

/-- JS truthiness (`if (x)`): null/undefined, `""` and `0` are falsy. -/
def jTruthy : JVal → Bool
  | .null => false
  | .str s => !s.isEmpty
  | .num n => n != 0
  | .arr _ => true
  | .obj _ => true

/-- Source `isString : typeof x === "string" && x.length > 0`, fused with the
extraction of the string it guards. -/
def jStr? : JVal → Option String
  | .str s => if s.isEmpty then none else some s
  | _ => none

/-- The value when it is a JS string (of any length), else `none`. -/
def jStrAny? : JVal → Option String
  | .str s => some s
  | _ => none

/-- `Array.isArray(x) ? x : [x]`. -/
def toArr : JVal → List JVal
  | .arr xs => xs.toList
  | x => [x]

/-- `o["#text"] ?? o["text"] ?? o["#"] ?? o["_"]` — the text-bearing keys
probed by `asText` on objects. -/
def keyText (fs : JObj) : JVal :=
  jOr (jGetO fs "#text") (jOr (jGetO fs "text") (jOr (jGetO fs "#") (jGetO fs "_")))

/-- Fueled body of source `asText`: nonempty strings returned as-is; arrays
recurse into their first element (`undefined` for `[]`); objects recurse into
their first text-bearing key; null/undefined give `null`; any other primitive
is coerced with `String(x)` (numbers; the empty string also lands here). -/
def asTextF (fuel : Nat) (v : JVal) : Option String :=
  match fuel with
  | 0 => none
  | fuel + 1 =>
    match v with
    | .str s => some s
    | .num n => some (toString n)
    | .null => none
    | .arr .nil => none
    | .arr (.cons x _) => asTextF fuel x
    | .obj fs => asTextF fuel (keyText fs)

/-- Source `asText` (the fuel `jsize v` strictly bounds the recursion depth,
see `asTextF_mono`). -/
def asText (v : JVal) : Option String :=
  asTextF (jsize v) v

/-! ## Character-level string helpers (JS string/regex operations) -/

/-- The double-quote and single-quote characters (regex class `["']`). -/
def isQuote (c : Char) : Bool :=
  c = '"' || c = Char.ofNat 39

/-- The backslash character. -/
def backslashChar : Char :=
  Char.ofNat 92

/-- JS `\s` (the whitespace characters relevant here). -/
def jsIsSpace (c : Char) : Bool :=
  c = ' ' || c = Char.ofNat 9 || c = Char.ofNat 10 || c = Char.ofNat 13 ||
  c = Char.ofNat 11 || c = Char.ofNat 12

/-- Case-insensitive prefix test (regex flag `i`): `pat` starts `t`. -/
def ciStarts : List Char → List Char → Bool
  | [], _ => true
  | _ :: _, [] => false
  | p :: ps, t :: ts => (p.toLower = t.toLower) && ciStarts ps ts

/-- Does `p` hold at some position of `t` (including the empty suffix)? -/
def anyPos (p : List Char → Bool) : List Char → Bool
  | [] => p []
  | c :: ts => p (c :: ts) || anyPos p ts

/-- Case-insensitive substring test. -/
def containsCI (pat : String) (s : String) : Bool :=
  anyPos (fun t => ciStarts pat.toList t) s.toList

/-- Consume the case-insensitive literal `s` from the front of `t`. -/
def eatCI (s : String) (t : List Char) : Option (List Char) :=
  if ciStarts s.toList t then some (t.drop s.toList.length) else none

/-- Split `t` at the first case-insensitive occurrence of `pat`, returning the
part before it and the part after it (the lazy `([\s\S]*?)pat` idiom). -/
def splitUntilCI (pat : String) : List Char → Option (List Char × List Char)
  | [] => if pat.isEmpty then some ([], []) else none
  | c :: ts =>
    if ciStarts pat.toList (c :: ts) then some ([], (c :: ts).drop pat.toList.length)
    else (splitUntilCI pat ts).map (fun r => (c :: r.1, r.2))

/-- `["']([^"']+)["']`: an opening quote, a nonempty capture free of both
quote characters, a closing quote (the two quotes need not match); returns
the capture and the rest after the closing quote. -/
def quotedCaptureRest (t : List Char) : Option (String × List Char) :=
  match t with
  | c :: t1 =>
    if isQuote c then
      let cap := t1.takeWhile (fun d => !isQuote d)
      match t1.drop cap.length with
      | _ :: rest2 => if cap.isEmpty then none else some (String.mk cap, rest2)
      | [] => none
    else none
  | [] => none

def quotedCapture (t : List Char) : Option String :=
  (quotedCaptureRest t).map (·.1)

/-- One global-replace step list for `s.replace(/<[^>]+>/g, " ")`: each
maximal `<...>` run (with at least one character inside) becomes one space. -/
def stripTagsGo (fuel : Nat) (t : List Char) : List Char :=
  match fuel with
  | 0 => t
  | fuel + 1 =>
    match t with
    | [] => []
    | c :: ts =>
      if c = '<' then
        let inner := ts.takeWhile (fun d => d ≠ '>')
        match ts.drop inner.length with
        | _ :: rest2 =>
          if inner.isEmpty then c :: stripTagsGo fuel ts
          else ' ' :: stripTagsGo fuel rest2
        | [] => c :: stripTagsGo fuel ts
      else c :: stripTagsGo fuel ts

/-- `s.replace(/\s+/g, " ")`. -/
def collapseWs (fuel : Nat) (t : List Char) : List Char :=
  match fuel with
  | 0 => t
  | fuel + 1 =>
    match t with
    | [] => []
    | c :: ts =>
      if jsIsSpace c then ' ' :: collapseWs fuel (ts.dropWhile jsIsSpace)
      else c :: collapseWs fuel ts

/-- JS `String.prototype.trim`. -/
def jsTrim (t : List Char) : List Char :=
  ((t.dropWhile jsIsSpace).reverse.dropWhile jsIsSpace).reverse

/-- Source `stripTags`:
`s.replace(/<[^>]+>/g, " ").replace(/\s+/g, " ").trim()`. -/
def stripTags (s : String) : String :=
  let l1 := stripTagsGo (s.toList.length + 1) s.toList
  String.mk (jsTrim (collapseWs (l1.length + 1) l1))

/-- `<title[^>]*>` at a position just after the literal `<title`: everything
up to the first `>`, which must exist; then the lazy capture up to the first
`</title>`. -/
def titleAt (after : List Char) : Option (List Char) :=
  let pre := after.takeWhile (fun c => c ≠ '>')
  match after.drop pre.length with
  | _ :: body => (splitUntilCI "</title>" body).map (·.1)
  | [] => none

def titleGo : List Char → Option (List Char)
  | [] => none
  | c :: ts =>
    if ciStarts "<title".toList (c :: ts) then
      match titleAt ((c :: ts).drop 6) with
      | some cap => some cap
      | none => titleGo ts
    else titleGo ts

/-- `html.match(/<title[^>]*>([\s\S]*?)<\/title>/i)`, returning the capture. -/
def matchTitleTag (html : String) : Option String :=
  (titleGo html.toList).map String.mk

/-! ## Path helpers (`path` / `path.posix`) -/

/-- Split a character list at every occurrence of `sep` (empty pieces kept). -/
def splitCharsOn (sep : Char) : List Char → List (List Char)
  | [] => [[]]
  | c :: ts =>
    let r := splitCharsOn sep ts
    if c = sep then [] :: r
    else
      match r with
      | h :: rest => (c :: h) :: rest
      | [] => [[c]]

/-- One step of POSIX path normalization over the stack of kept segments:
`.` is dropped, `..` pops (a no-op at the root), anything else is pushed. -/
def resolveStep (acc : List (List Char)) (seg : List Char) : List (List Char) :=
  if seg = ['.'] then acc
  else if seg = ['.', '.'] then acc.dropLast
  else acc ++ [seg]

def joinSegs : List (List Char) → List Char
  | [] => []
  | [s] => s
  | s :: rest => s ++ '/' :: joinSegs rest

/-- Node `path.resolve(baseAbs, relPath)` for an absolute `baseAbs` (all call
sites pass the absolute book root or a path under it): if `relPath` is itself
absolute it alone is normalized, otherwise the concatenation is. -/
def pathResolve (baseAbs relPath : String) : String :=
  let segs :=
    if relPath.toList.head? = some '/' then splitCharsOn '/' relPath.toList
    else splitCharsOn '/' baseAbs.toList ++ splitCharsOn '/' relPath.toList
  String.mk ('/' :: joinSegs ((segs.filter (fun s => s ≠ [])).foldl resolveStep []))

/-- JS `resolved.startsWith(baseAbs)` (a plain string-prefix test). -/
def strStartsWith (s pre : String) : Bool :=
  pre.toList.isPrefixOf s.toList

/-- The thrown errors of the engine. -/
inductive Err where
  | traversal
  | readFail
  | emptySpine
deriving DecidableEq

/-- Source `safeJoin` (the path-traversal guard):
```
const resolved = path.resolve(baseAbs, relPath);
if (!resolved.startsWith(baseAbs)) throw new Error("Path traversal blocked");
return resolved;
``` -/
def safeJoin (baseAbs relPath : String) : Except Err String :=
  let resolved := pathResolve baseAbs relPath
  if strStartsWith resolved baseAbs then .ok resolved else .error .traversal

/-- Node `path.posix.dirname`. -/
def posixDirname (p : String) : String :=
  let cs := p.toList
  if cs.isEmpty then "."
  else
    let hasRoot := cs.head? = some '/'
    let r1 := cs.reverse.dropWhile (fun c => c = '/')
    let r2 := r1.dropWhile (fun c => c ≠ '/')
    if r2.length ≤ 1 then (if hasRoot then "/" else ".")
    else if hasRoot && r2.length = 2 then "//"
    else String.mk (cs.take (r2.length - 1))

/-- Node `path.posix.basename`. -/
def posixBasename (p : String) : String :=
  let r1 := p.toList.reverse.dropWhile (fun c => c = '/')
  String.mk ((r1.takeWhile (fun c => c ≠ '/')).reverse)

/-- `href.split("#")[0]`. -/
def stripFrag (s : String) : String :=
  String.mk (s.toList.takeWhile (fun c => c ≠ '#'))

/-- `base.replace(/\.[^.]+$/, "")`: strip a final extension (a dot followed
by one or more non-dot characters at the end). -/
def stripExt (s : String) : String :=
  let r := s.toList.reverse
  let ext := r.takeWhile (fun c => c ≠ '.')
  match r.drop ext.length with
  | '.' :: rest2 => if ext.isEmpty then s else String.mk rest2.reverse
  | _ => s

/-- `props.split(/\s+/).includes(w)` (whitespace-run tokenization; the empty
tokens JS produces at the ends can never equal the nonempty words probed). -/
def hasWord (props w : String) : Bool :=
  ((props.toList.splitOnP jsIsSpace).map String.mk).contains w

/-- Source `normalizeHref` / the `resolveHref` closure in `parseOpf`:
`(opfDir ? `${opfDir}/${href}` : href).replace(/\\/g, "/")`. -/
def normalizeHref (opfDir href : String) : String :=
  let joined := if opfDir.isEmpty then href else opfDir ++ "/" ++ href
  String.mk (joined.toList.map (fun c => if c = backslashChar then '/' else c))

/-- The bare `` opfDir ? `${opfDir}/${href}` : href `` join (no backslash
replacement), as used for the NCX and nav-document paths. -/
def joinDir (opfDir href : String) : String :=
  if opfDir.isEmpty then href else opfDir ++ "/" ++ href

/-! ## Specific regex matchers of the source -/

/-- `/writing-mode\s*:\s*vertical/i` as a test at one position. -/
def writingModeAt (t : List Char) : Bool :=
  match eatCI "writing-mode" t with
  | none => false
  | some t1 =>
    match t1.dropWhile jsIsSpace with
    | ':' :: t2 => (eatCI "vertical" (t2.dropWhile jsIsSpace)).isSome
    | _ => false

/-- `/writing-mode\s*:\s*vertical/i.test(html)`. -/
def hasWritingModeVertical (html : String) : Bool :=
  anyPos writingModeAt html.toList

/-- `/vertical-rl|vertical-lr/i.test(html)`. -/
def hasVerticalRl (html : String) : Bool :=
  containsCI "vertical-rl" html || containsCI "vertical-lr" html

/-- `/page-progression-direction\s*=\s*["']rtl["']/i` as a test at one
position. -/
def rtlAttrAt (t : List Char) : Bool :=
  match eatCI "page-progression-direction" t with
  | none => false
  | some t1 =>
    match t1.dropWhile jsIsSpace with
    | '=' :: t2 =>
      match t2.dropWhile jsIsSpace with
      | c :: t3 =>
        if isQuote c then
          match eatCI "rtl" t3 with
          | some (d :: _) => isQuote d
          | _ => false
        else false
      | [] => false
    | _ => false

/-- `/page-progression-direction\s*=\s*["']rtl["']/i.test(s)`. -/
def hasRtlAttr (s : String) : Bool :=
  anyPos rtlAttrAt s.toList

/-- `(?:epub:type|role)=["'](?:toc|doc-toc)["']` as a test at one position
(the two quotes are each independently `"` or `'`). -/
def navAttrAt (t : List Char) : Bool :=
  match (match eatCI "epub:type" t with
         | some r => some r
         | none => eatCI "role" t) with
  | none => false
  | some t1 =>
    match t1 with
    | '=' :: t2 =>
      match t2 with
      | c :: t3 =>
        if isQuote c then
          ((match eatCI "toc" t3 with
            | some (d :: _) => isQuote d
            | _ => false) ||
           (match eatCI "doc-toc" t3 with
            | some (d :: _) => isQuote d
            | _ => false))
        else false
      | [] => false
    | _ => false

/-- `<nav[^>]*(?:epub:type|role)=["'](?:toc|doc-toc)["'][^>]*>([\s\S]*?)<\/nav>`
at a position just after the literal `<nav`: the attribute pattern must occur
inside the `>`-free attribute region, then the lazy capture runs to the first
`</nav>`. -/
def navAt (after : List Char) : Option (List Char) :=
  let region := after.takeWhile (fun c => c ≠ '>')
  match after.drop region.length with
  | _ :: body =>
    if anyPos navAttrAt region then (splitUntilCI "</nav>" body).map (·.1)
    else none
  | [] => none

def navGo : List Char → Option (List Char)
  | [] => none
  | c :: ts =>
    if ciStarts "<nav".toList (c :: ts) then
      match navAt ((c :: ts).drop 4) with
      | some cap => some cap
      | none => navGo ts
    else navGo ts

/-- `navHtml.match(/<nav[^>]*(?:epub:type|role)=["'](?:toc|doc-toc)["'][^>]*>([\s\S]*?)<\/nav>/i)`,
returning the captured block. -/
def findNavBlock (html : String) : Option String :=
  (navGo html.toList).map String.mk

/-- `href\s*=\s*["']([^"']+)["']` at one position: the capture and the rest
after the closing quote. -/
def hrefAttrAt (t : List Char) : Option (String × List Char) :=
  match eatCI "href" t with
  | none => none
  | some t1 =>
    match t1.dropWhile jsIsSpace with
    | '=' :: t3 => quotedCaptureRest (t3.dropWhile jsIsSpace)
    | _ => none

/-- JS `\w` (ASCII word characters, for the `\b` in `<a\b`). -/
def isWordChar (c : Char) : Bool :=
  c.isAlphanum || c = '_'

/-- Word boundary after `<a`: the next character (if any) is not a word
character. -/
def boundaryOk : List Char → Bool
  | [] => true
  | c :: _ => !isWordChar c

/-- The tail of `<a\b[^>]*href\s*=\s*["']([^"']+)["'][^>]*>([\s\S]*?)<\/a>`
starting right at the `href`: attribute capture, then everything to the first
`>`, then the lazy inner capture to the first `</a>`; returns
(href, inner, rest-after-match). -/
def anchorTail (t : List Char) : Option (String × String × List Char) :=
  match hrefAttrAt t with
  | none => none
  | some (href, t1) =>
    let pre := t1.takeWhile (fun c => c ≠ '>')
    match t1.drop pre.length with
    | _ :: t2 =>
      match splitUntilCI "</a>" t2 with
      | some (inner, rest) => some (href, String.mk inner, rest)
      | none => none
    | [] => none

/-- The full anchor pattern at a position just after the literal `<a` (with
the boundary already checked): `href` may start anywhere in the `>`-free
attribute region; the greedy `[^>]*` picks the last start position for which
the whole rest of the pattern succeeds. -/
def anchorAt (afterA : List Char) : Option (String × String × List Char) :=
  let region := afterA.takeWhile (fun c => c ≠ '>')
  ((List.range (region.length + 1)).filterMap
    (fun i => anchorTail (afterA.drop i))).getLast?

/-- The global `while ((m = re.exec(navBlock)))` loop over the anchor regex:
successive non-overlapping matches, resuming after each full match. -/
def anchorsGo (fuel : Nat) (t : List Char) : List (String × String) :=
  match fuel with
  | 0 => []
  | fuel + 1 =>
    match t with
    | [] => []
    | c :: ts =>
      if ciStarts "<a".toList (c :: ts) && boundaryOk ((c :: ts).drop 2) then
        match anchorAt ((c :: ts).drop 2) with
        | some (href, inner, rest) => (href, inner) :: anchorsGo fuel rest
        | none => anchorsGo fuel ts
      else anchorsGo fuel ts

/-- All `(href, raw inner markup)` pairs matched by
`/<a\b[^>]*href\s*=\s*["']([^"']+)["'][^>]*>([\s\S]*?)<\/a>/gi`. -/
def anchorsOf (s : String) : List (String × String) :=
  anchorsGo (s.toList.length + 1) s.toList

/-- `src=["']([^"']+)["']` search inside the `>`-free region after `<img`
(the greedy `[^>]*` picks the last start position that succeeds). -/
def imgAt (after : List Char) : Option String :=
  let region := after.takeWhile (fun c => c ≠ '>')
  ((List.range (region.length + 1)).filterMap
    (fun i =>
      match eatCI "src=" (after.drop i) with
      | some t1 => quotedCapture t1
      | none => none)).getLast?

def imgGo : List Char → Option String
  | [] => none
  | c :: ts =>
    if ciStarts "<img".toList (c :: ts) then
      match imgAt ((c :: ts).drop 4) with
      | some v => some v
      | none => imgGo ts
    else imgGo ts

/-- `html.match(/<img[^>]*src=["']([^"']+)["']/i)`, returning the capture. -/
def matchImgSrc (html : String) : Option String :=
  imgGo html.toList

/-- `(?:xlink:href|href)=["']([^"']+)["']` search inside the `>`-free region
after `<image`. -/
def imageAt (after : List Char) : Option String :=
  let region := after.takeWhile (fun c => c ≠ '>')
  ((List.range (region.length + 1)).filterMap
    (fun i =>
      match eatCI "xlink:href=" (after.drop i) with
      | some t1 => quotedCapture t1
      | none =>
        match eatCI "href=" (after.drop i) with
        | some t1 => quotedCapture t1
        | none => none)).getLast?

def imageGo : List Char → Option String
  | [] => none
  | c :: ts =>
    if ciStarts "<image".toList (c :: ts) then
      match imageAt ((c :: ts).drop 6) with
      | some v => some v
      | none => imageGo ts
    else imageGo ts

/-- `html.match(/<image[^>]*(?:xlink:href|href)=["']([^"']+)["']/i)`,
returning the capture. -/
def matchImageHref (html : String) : Option String :=
  imageGo html.toList

/-! ## Filesystem model and data model -/

/-- The read-only filesystem under the book root: absolute (normalized) path
to file contents. -/
abbrev FS := List (String × String)

/-- `fs.readFile(p, "utf8")` / `fssync.readFileSync(p, "utf8")`: `none` means
the read throws (file absent). -/
def readFS? (fs : FS) (p : String) : Option String :=
  (fs.find? (fun e => e.1 = p)).map (·.2)

/-- `fssync.existsSync(p)`. -/
def existsFS (fs : FS) (p : String) : Bool :=
  (readFS? fs p).isSome

/-- A manifest-table entry `{ href, properties?, mediaType? }`. -/
structure Item where
  href : String
  properties : Option String
  mediaType : Option String
deriving DecidableEq

/-- A chapter entry `{ title, href }`. -/
structure Chapter where
  title : String
  href : String
deriving DecidableEq

/-- Source `BookManifest` (the `vertical` field is always set by `parseOpf`,
`coverHref` may be absent). -/
structure BookManifest where
  title : String
  opfPath : String
  spine : List String
  chapters : List Chapter
  coverHref : Option String
  vertical : Bool
deriving DecidableEq

/-- `Map.set` of a JS `Map`: overwriting an existing key keeps its original
position, a new key is appended (insertion order is preserved for
iteration). -/
def mapSet (m : List (String × Item)) (k : String) (v : Item) : List (String × Item) :=
  if m.any (fun e => e.1 = k) then m.map (fun e => if e.1 = k then (k, v) else e)
  else m ++ [(k, v)]

/-- `Map.get`. -/
def mapGet? (m : List (String × Item)) (k : String) : Option Item :=
  (m.find? (fun e => e.1 = k)).map (·.2)

/-- `Map.values()` in iteration order. -/
def mapValues (m : List (String × Item)) : List Item :=
  m.map (·.2)

/-! ## Package-document parsing (`parseOpf` and its pieces) -/

/-- The manifest table of `parseOpf`:
```
const manifestItems = json?.package?.manifest?.item ?? [];
const itemsArr = Array.isArray(manifestItems) ? manifestItems : [manifestItems];
const manifestMap = new Map(); for (const it of itemsArr) { ... }
```
entries are added only when both `@_id` and `@_href` are nonempty strings;
duplicate ids overwrite (last write wins). -/
def manifestStep (m : List (String × Item)) (it : JVal) : List (String × Item) :=
  match jStr? (it.get "@_id"), jStr? (it.get "@_href") with
  | some id, some href =>
    mapSet m id { href := href,
                  properties := jStrAny? (it.get "@_properties"),
                  mediaType := jStrAny? (it.get "@_media-type") }
  | _, _ => m

def manifestMapOf (json : JVal) : List (String × Item) :=
  let items := jOr (((json.get "package").get "manifest").get "item") (jarr [])
  (toArr items).foldl manifestStep []

/-- `opfDir` of `parseOpf`:
`const opfDirRel = path.posix.dirname(opfRelPath); const opfDir = opfDirRel === "." ? "" : opfDirRel;` -/
def opfDirOf (opfRelPath : String) : String :=
  let d := posixDirname opfRelPath
  if d = "." then "" else d

/-- The resolved spine of `parseOpf`:
```
const spine = spineArr.map(it => it?.["@_idref"]).filter(isString)
  .map(idref => manifestMap.get(idref)?.href).filter(isString).map(resolveHref);
``` -/
def spineOf (json : JVal) (mm : List (String × Item)) (opfDir : String) : List String :=
  let spineItems := jOr (((json.get "package").get "spine").get "itemref") (jarr [])
  let idrefs := (toArr spineItems).filterMap (fun (it : JVal) => jStr? (it.get "@_idref"))
  let hrefs := idrefs.filterMap (fun idref => (mapGet? mm idref).map (·.href))
  (hrefs.filter (fun h => !h.isEmpty)).map (normalizeHref opfDir)

/-- The title of `parseOpf`:
```
const titleRaw = metadata?.["dc:title"] ?? metadata?.title ?? "Untitled";
const title = asText(titleRaw) ?? "Untitled";
``` -/
def titleOf (json : JVal) : String :=
  let metadata := (json.get "package").get "metadata"
  let titleRaw := jOr (metadata.get "dc:title") (jOr (metadata.get "title") (.str "Untitled"))
  (asText titleRaw).getD "Untitled"

/-- `np?.navPoint ?? []` coerced to an array — the children of an NCX
navigation point. -/
def childList (np : JVal) : List JVal :=
  toArr (jOr (np.get "navPoint") (jarr []))

/-- Fueled body of the recursive `walk` over NCX `navPoint` nodes: a node
carrying a nonempty-string `navLabel.text` and `content["@_src"]` emits one
chapter, then children are walked in order (falsy children skipped). -/
def ncxWalkF (opfDir : String) (fuel : Nat) (np : JVal) : List Chapter :=
  match fuel with
  | 0 => []
  | fuel + 1 =>
    let here :=
      match jStr? ((np.get "navLabel").get "text"), jStr? ((np.get "content").get "@_src") with
      | some label, some src => [{ title := label, href := normalizeHref opfDir src }]
      | _, _ => []
    here ++ ((childList np).map (fun c => if jTruthy c then ncxWalkF opfDir fuel c else [])).flatten

/-- The `walk` of the EPUB2 NCX tier (fuel `jsize np` strictly bounds the
recursion depth, see `jsize_childList_lt`). -/
def ncxWalk (opfDir : String) (np : JVal) : List Chapter :=
  ncxWalkF opfDir (jsize np) np

/-- Tier 1 of `extractChapters` (EPUB2: `spine @toc -> NCX`). The `safeJoin`
on the NCX path is outside the `try` block, so its failure propagates; a
missing file or (modelled-total) parse simply leaves the tier empty. -/
def ncxChapters (xp : String → JVal) (fs : FS) (root opfDir : String) (json : JVal)
    (mm : List (String × Item)) : Except Err (List Chapter) :=
  match jStr? (((json.get "package").get "spine").get "@_toc") with
  | none => .ok []
  | some tocId =>
    match mapGet? mm tocId with
    | none => .ok []
    | some ncx =>
      if ncx.href.isEmpty then .ok []
      else
        match safeJoin root (joinDir opfDir ncx.href) with
        | .error e => .error e
        | .ok ncxAbs =>
          match readFS? fs ncxAbs with
          | none => .ok []
          | some ncxXml =>
            let ncxJson := xp ncxXml
            let navMap := (ncxJson.get "ncx").get "navMap"
            let tops := toArr (jOr (navMap.get "navPoint") (jarr []))
            .ok (((tops.filter jTruthy).map (ncxWalk opfDir)).flatten)

/-- The EPUB3 nav-item search of `extractChapters`: the first manifest value
whose (truthy) `properties` word-list contains `nav`. -/
def navItemHref? (mm : List (String × Item)) : Option String :=
  (mapValues mm).findSome? (fun v =>
    match v.properties with
    | some p => if !p.isEmpty && hasWord p "nav" then some v.href else none
    | none => none)

/-- Tier 2 of `extractChapters` (EPUB3 navigation document). As in the
source, the `safeJoin` on the nav path is outside the `try` block. -/
def navChapters (fs : FS) (root opfDir : String) (mm : List (String × Item)) :
    Except Err (List Chapter) :=
  match navItemHref? mm with
  | none => .ok []
  | some navHref =>
    if navHref.isEmpty then .ok []
    else
      match safeJoin root (joinDir opfDir navHref) with
      | .error e => .error e
      | .ok navAbs =>
        match readFS? fs navAbs with
        | none => .ok []
        | some navHtml =>
          let navBlock := (findNavBlock navHtml).getD navHtml
          .ok ((anchorsOf navBlock).filterMap (fun a =>
            let href := a.1
            let title := stripTags a.2
            if !href.isEmpty && !title.isEmpty then
              some { title := title, href := normalizeHref opfDir href }
            else none))

/-- The shared title fallback: basename of the fragment-stripped href (or the
raw href when that is empty), extension stripped, else `"Chapter N"`. -/
def chapterFallback (i : Nat) (href base : String) : String :=
  let baseName := posixBasename (if base.isEmpty then href else base)
  let b := stripExt baseName
  if b.isEmpty then "Chapter " ++ toString (i + 1) else b

/-- Tier 3 of `extractChapters`: per-spine-document scraping. The whole
read-and-match is inside `try { } catch { }`, so a guard failure or missing
file just leaves the scraped title `null`. -/
def scrapeChapters (fs : FS) (root : String) (spine : List String) : List Chapter :=
  spine.enum.map (fun p =>
    let i := p.1
    let href := p.2
    let cleanHref := stripFrag href
    let title0 : Option String :=
      match safeJoin root cleanHref with
      | .error _ => none
      | .ok abs =>
        match readFS? fs abs with
        | none => none
        | some html => (matchTitleTag html).map stripTags
    let title :=
      match title0 with
      | some t => if t.isEmpty then chapterFallback i href cleanHref else t
      | none => chapterFallback i href cleanHref
    { title := title, href := href })

/-- Source `extractChapters`: tier 1 (NCX), else tier 2 (nav document), else
tier 3 (per-document scraping); the first nonempty tier wins. -/
def extractChapters (xp : String → JVal) (fs : FS) (root opfDir : String) (json : JVal)
    (mm : List (String × Item)) (spine : List String) : Except Err (List Chapter) :=
  match ncxChapters xp fs root opfDir json mm with
  | .error e => .error e
  | .ok t1 =>
    if !t1.isEmpty then .ok t1
    else
      match navChapters fs root opfDir mm with
      | .error e => .error e
      | .ok t2 =>
        if !t2.isEmpty then .ok t2
        else .ok (scrapeChapters fs root spine)

/-- The `titleMap` lookup of `mergeChaptersWithSpine`: the first nonempty
title among discovered chapters whose fragment-stripped href equals `base`. -/
def firstTitleFor (chapters : List Chapter) (base : String) : Option String :=
  chapters.findSome? (fun c =>
    if stripFrag c.href = base && !c.title.isEmpty then some c.title else none)

/-- Source `mergeChaptersWithSpine`: one output entry per spine position,
carrying the spine href verbatim; the title comes from the discovered-TOC
title map, else the document's own page title, else the basename fallback. -/
def mergeChaptersWithSpine (fs : FS) (root : String) (spine : List String)
    (chapters : List Chapter) : List Chapter :=
  spine.enum.map (fun p =>
    let i := p.1
    let href := p.2
    let base := stripFrag href
    let title1 : Option String :=
      match firstTitleFor chapters base with
      | some t => some t
      | none =>
        match safeJoin root base with
        | .error _ => none
        | .ok abs =>
          let html := if existsFS fs abs then (readFS? fs abs).getD "" else ""
          (matchTitleTag html).map stripTags
    let title :=
      match title1 with
      | some t => if t.isEmpty then chapterFallback i href base else t
      | none => chapterFallback i href base
    { title := title, href := href })

/-- Source `findCoverIdFromMetadata`: the first `<meta>` entry whose `@_name`
is exactly the string `"cover"` and whose `@_content` is a nonempty string. -/
def findCoverIdFromMetadata (metadata : JVal) : Option String :=
  (toArr (jOr (metadata.get "meta") (jarr []))).findSome? (fun m =>
    match m.get "@_name" with
    | .str s => if s = "cover" then jStr? (m.get "@_content") else none
    | _ => none)

/-- The EPUB3 cover loop of `extractCoverHref`: the first manifest value
whose (truthy) `properties` word-list contains `cover-image`. -/
def coverImageItemHref? (mm : List (String × Item)) : Option String :=
  (mapValues mm).findSome? (fun v =>
    match v.properties with
    | some p => if !p.isEmpty && hasWord p "cover-image" then some v.href else none
    | none => none)

/-- The EPUB2 tier of `extractCoverHref`: a metadata cover id that resolves
through the manifest table to a truthy href. -/
def coverFromMeta? (opfDir : String) (metadata : JVal) (mm : List (String × Item)) :
    Option String :=
  match findCoverIdFromMetadata metadata with
  | some coverId =>
    match mapGet? mm coverId with
    | some item => if item.href.isEmpty then none else some (normalizeHref opfDir item.href)
    | none => none
  | none => none

/-- Source `extractCoverHref`: EPUB2 metadata cover id, else the
`cover-image` manifest property, else the first `<img src>` anywhere in the
first spine document and only failing that the first `<image href>`; the
whole tier-3 read is inside `try { } catch { }`. -/
def extractCoverHref (fs : FS) (root opfDir : String) (json : JVal)
    (mm : List (String × Item)) (spine : List String) : Option String :=
  let metadata := (json.get "package").get "metadata"
  match coverFromMeta? opfDir metadata mm with
  | some h => some h
  | none =>
    match coverImageItemHref? mm with
    | some href => some (normalizeHref opfDir href)
    | none =>
      match spine with
      | [] => none
      | first :: _ =>
        match safeJoin root (stripFrag first) with
        | .error _ => none
        | .ok abs =>
          match readFS? fs abs with
          | none => none
          | some html =>
            match matchImgSrc html <|> matchImageHref html with
            | some v => if v.isEmpty then none else some (normalizeHref opfDir v)
            | none => none

/-- The first `try` block of `detectVertical`: signals in the first spine
document itself (all failures caught and treated as no signal). -/
def docVerticalSignal (fs : FS) (root first : String) : Bool :=
  match safeJoin root (stripFrag first) with
  | .error _ => false
  | .ok abs =>
    match readFS? fs abs with
    | none => false
    | some html =>
      hasWritingModeVertical html || hasVerticalRl html || hasRtlAttr html

/-- The second `try` block of `detectVertical`: a right-to-left
page-progression declaration in the raw package-document text (all failures
caught). -/
def opfRtlSignal (fs : FS) (root opfRelPath : String) : Bool :=
  match safeJoin root opfRelPath with
  | .error _ => false
  | .ok opfAbs =>
    match readFS? fs opfAbs with
    | none => false
    | some opfXml => hasRtlAttr opfXml

/-- Source `detectVertical`: `const first = spine[0]; if (!first) return
false;` — false when the first spine entry is absent (empty spine) or falsy
(the empty string); else the first spine document's signals, else the package
document's RTL declaration; never throws. -/
def detectVertical (fs : FS) (root : String) (spine : List String)
    (opfRelPath : String) : Bool :=
  match spine with
  | [] => false
  | first :: _ =>
    if first.isEmpty then false
    else if docVerticalSignal fs root first then true
    else opfRtlSignal fs root opfRelPath

/-- Source `parseOpf`: guard and read the package document, parse it, build
title/manifest/spine, fail on an empty spine, extract chapters (merging with
the spine when fewer chapters than spine entries were discovered), cover and
writing direction. -/
def parseOpf (xp : String → JVal) (fs : FS) (bookRootAbs opfRelPath : String) :
    Except Err BookManifest :=
  match safeJoin bookRootAbs opfRelPath with
  | .error e => .error e
  | .ok opfAbs =>
    match readFS? fs opfAbs with
    | none => .error .readFail
    | some opfXml =>
      let json := xp opfXml
      let mm := manifestMapOf json
      let opfDir := opfDirOf opfRelPath
      let spine := spineOf json mm opfDir
      if spine.isEmpty then .error .emptySpine
      else
        match extractChapters xp fs bookRootAbs opfDir json mm spine with
        | .error e => .error e
        | .ok base =>
          .ok { title := titleOf json,
                opfPath := opfRelPath,
                spine := spine,
                chapters :=
                  if base.length < spine.length then
                    mergeChaptersWithSpine fs bookRootAbs spine base
                  else base,
                coverHref := extractCoverHref fs bookRootAbs opfDir json mm spine,
                vertical := detectVertical fs bookRootAbs spine opfRelPath }

/-! ## Basic lemmas about the embedding -/

theorem jStr?_isEmpty_false {v : JVal} {s : String} (h : jStr? v = some s) :
    s.isEmpty = false := by
  cases v <;> simp [jStr?] at h
  rcases h with ⟨h1, h2⟩
  subst h2
  simpa using h1

theorem safeJoin_error_eq {a b : String} {e : Err} (h : safeJoin a b = .error e) :
    e = .traversal := by
  simp only [safeJoin] at h
  split at h
  · cases h
  · cases h; rfl

theorem strne_of_isEmpty_false {s : String} (h : s.isEmpty = false) : s ≠ "" := by
  intro hs
  subst hs
  cases h

theorem chapterFallback_ne_empty (i : Nat) (href base : String) :
    chapterFallback i href base ≠ "" := by
  simp only [chapterFallback]
  set b := stripExt (posixBasename (if base.isEmpty then href else base)) with hbdef
  by_cases hb : b.isEmpty = true
  · rw [if_pos hb]
    intro h
    have h2 := congrArg String.length h
    rw [String.length_append] at h2
    have e1 : "Chapter ".length = 8 := rfl
    have e2 : "".length = 0 := rfl
    omega
  · rw [if_neg hb]
    exact strne_of_isEmpty_false (Bool.of_not_eq_true hb)

theorem firstTitleFor_isEmpty_false {chs : List Chapter} {base t : String}
    (h : firstTitleFor chs base = some t) : t.isEmpty = false := by
  unfold firstTitleFor at h
  obtain ⟨c, _, hc⟩ := List.exists_of_findSome?_eq_some h
  by_cases hcond : (stripFrag c.href = base && !c.title.isEmpty) = true
  · rw [if_pos hcond] at hc
    cases hc
    simp only [Bool.and_eq_true, Bool.not_eq_true'] at hcond
    exact hcond.2
  · rw [if_neg hcond] at hc
    cases hc

theorem mem_mapSet {m : List (String × Item)} {k : String} {v : Item} {e : String × Item}
    (h : e ∈ mapSet m k v) : e = (k, v) ∨ e ∈ m := by
  unfold mapSet at h
  split at h
  · obtain ⟨a, ha, hae⟩ := List.mem_map.1 h
    by_cases hk : a.1 = k
    · rw [if_pos hk] at hae
      exact Or.inl hae.symm
    · rw [if_neg hk] at hae
      exact Or.inr (hae ▸ ha)
  · rcases List.mem_append.1 h with h1 | h2
    · exact Or.inr h1
    · left
      simpa using h2

theorem mem_manifestStep {m : List (String × Item)} {it : JVal} {e : String × Item}
    (h : e ∈ manifestStep m it) : e ∈ m ∨ e.2.href.isEmpty = false := by
  unfold manifestStep at h
  split at h
  · rename_i id href h1 h2
    rcases mem_mapSet h with he | he
    · right
      rw [he]
      exact jStr?_isEmpty_false h2
    · exact Or.inl he
  · exact Or.inl h

theorem foldl_manifestStep_href (items : List JVal) :
    ∀ m : List (String × Item), (∀ e ∈ m, e.2.href.isEmpty = false) →
      ∀ e ∈ items.foldl manifestStep m, e.2.href.isEmpty = false := by
  induction items with
  | nil =>
    intro m hm e he
    exact hm e (by simpa using he)
  | cons it rest ih =>
    intro m hm e he
    rw [List.foldl_cons] at he
    refine ih (manifestStep m it) ?_ e he
    intro e2 he2
    rcases mem_manifestStep he2 with h2 | h2
    · exact hm e2 h2
    · exact h2

theorem mem_manifestMapOf_href {json : JVal} :
    ∀ e ∈ manifestMapOf json, e.2.href.isEmpty = false := by
  unfold manifestMapOf
  exact foldl_manifestStep_href _ [] (by simp)

theorem mapGet?_manifestMapOf_href {json : JVal} {id : String} {it : Item}
    (h : mapGet? (manifestMapOf json) id = some it) : it.href.isEmpty = false := by
  unfold mapGet? at h
  rcases hf : (manifestMapOf json).find? (fun e => e.1 = id) with _ | e
  · rw [hf] at h
    cases h
  · rw [hf] at h
    have hm := List.mem_of_find?_eq_some hf
    have := mem_manifestMapOf_href e hm
    cases h
    exact this

/-- Modelled from the spec: "Spine: each declared item-reference resolved
through the manifest table to an href, then resolved relative to the package
document's containing directory, with path separators normalized; unresolved
references are skipped." One pass over the declared item-references. -/
def specSpine (json : JVal) (mm : List (String × Item)) (opfDir : String) : List String :=
  (toArr (jOr (((json.get "package").get "spine").get "itemref") (jarr []))).filterMap
    (fun (it : JVal) =>
      (jStr? (it.get "@_idref")).bind
        (fun idref => (mapGet? mm idref).map (fun item => normalizeHref opfDir item.href)))

theorem spine_stages_eq (opfDir : String) (mm : List (String × Item))
    (hmm : ∀ id it, mapGet? mm id = some it → it.href.isEmpty = false)
    (refs : List JVal) :
    ((((refs.filterMap (fun (it : JVal) => jStr? (it.get "@_idref"))).filterMap
        (fun idref => (mapGet? mm idref).map (·.href))).filter
        (fun h => !h.isEmpty)).map (normalizeHref opfDir))
      = refs.filterMap (fun (it : JVal) =>
          (jStr? (it.get "@_idref")).bind
            (fun idref => (mapGet? mm idref).map (fun item => normalizeHref opfDir item.href))) := by
  induction refs with
  | nil => rfl
  | cons r rest ih =>
    rcases h1 : jStr? (r.get "@_idref") with _ | idref
    · simpa [List.filterMap_cons, h1] using ih
    · rcases h2 : mapGet? mm idref with _ | item
      · simpa [List.filterMap_cons, h1, h2] using ih
      · have hne := hmm idref item h2
        simpa [List.filterMap_cons, h1, h2, List.filter_cons, hne] using ih

/-- The staged spine computation of the source equals the spec's single-pass
description (the manifest table only ever stores nonempty hrefs, so the
source's second `filter(isString)` never drops anything). -/
theorem spineOf_eq_specSpine (json : JVal) (opfDir : String) :
    spineOf json (manifestMapOf json) opfDir = specSpine json (manifestMapOf json) opfDir := by
  unfold spineOf specSpine
  exact spine_stages_eq opfDir (manifestMapOf json)
    (fun id it h => mapGet?_manifestMapOf_href h) _

/-! ## Merge and scrape lemmas -/

theorem merge_map_href (fs : FS) (root : String) (spine : List String) (chs : List Chapter) :
    (mergeChaptersWithSpine fs root spine chs).map Chapter.href = spine := by
  unfold mergeChaptersWithSpine
  rw [List.map_map]
  calc spine.enum.map _ = spine.enum.map Prod.snd :=
        List.map_congr_left (fun p _ => rfl)
    _ = spine := List.enum_map_snd spine

theorem merge_length (fs : FS) (root : String) (spine : List String) (chs : List Chapter) :
    (mergeChaptersWithSpine fs root spine chs).length = spine.length := by
  have h := congrArg List.length (merge_map_href fs root spine chs)
  simpa using h

theorem merge_getElem? {fs : FS} {root : String} {spine : List String} {chs : List Chapter}
    {i : Nat} {href t : String}
    (h1 : spine[i]? = some href) (h2 : firstTitleFor chs (stripFrag href) = some t) :
    (mergeChaptersWithSpine fs root spine chs)[i]? = some { title := t, href := href } := by
  unfold mergeChaptersWithSpine
  rw [List.getElem?_map, List.getElem?_enum, h1]
  have hne := firstTitleFor_isEmpty_false h2
  simp [h2, hne]

theorem scrape_map_href (fs : FS) (root : String) (spine : List String) :
    (scrapeChapters fs root spine).map Chapter.href = spine := by
  unfold scrapeChapters
  rw [List.map_map]
  calc spine.enum.map _ = spine.enum.map Prod.snd :=
        List.map_congr_left (fun p _ => rfl)
    _ = spine := List.enum_map_snd spine

theorem scrape_length (fs : FS) (root : String) (spine : List String) :
    (scrapeChapters fs root spine).length = spine.length := by
  have h := congrArg List.length (scrape_map_href fs root spine)
  simpa using h

/-! ## Error analysis of the chapter tiers and `parseOpf` -/

theorem ncxChapters_error_eq {xp : String → JVal} {fs : FS} {root opfDir : String}
    {json : JVal} {mm : List (String × Item)} {e : Err}
    (h : ncxChapters xp fs root opfDir json mm = .error e) : e = .traversal := by
  unfold ncxChapters at h
  split at h
  · cases h
  · split at h
    · cases h
    · split at h
      · cases h
      · split at h
        · rename_i e2 heq
          cases h
          exact safeJoin_error_eq heq
        · split at h
          · cases h
          · cases h

theorem navChapters_error_eq {fs : FS} {root opfDir : String}
    {mm : List (String × Item)} {e : Err}
    (h : navChapters fs root opfDir mm = .error e) : e = .traversal := by
  unfold navChapters at h
  split at h
  · cases h
  · split at h
    · cases h
    · split at h
      · rename_i e2 heq
        cases h
        exact safeJoin_error_eq heq
      · split at h
        · cases h
        · cases h

theorem extractChapters_error_eq {xp : String → JVal} {fs : FS} {root opfDir : String}
    {json : JVal} {mm : List (String × Item)} {spine : List String} {e : Err}
    (h : extractChapters xp fs root opfDir json mm spine = .error e) : e = .traversal := by
  unfold extractChapters at h
  split at h
  · rename_i e1 heq
    cases h
    exact ncxChapters_error_eq heq
  · split at h
    · cases h
    · split at h
      · rename_i e2 heq2
        cases h
        exact navChapters_error_eq heq2
      · split at h
        · cases h
        · cases h

theorem parseOpf_ok_elim {xp : String → JVal} {fs : FS} {root opfRel : String}
    {m : BookManifest} (h : parseOpf xp fs root opfRel = .ok m) :
    ∃ opfAbs opfXml base,
      safeJoin root opfRel = .ok opfAbs ∧
      readFS? fs opfAbs = some opfXml ∧
      (spineOf (xp opfXml) (manifestMapOf (xp opfXml)) (opfDirOf opfRel)).isEmpty = false ∧
      extractChapters xp fs root (opfDirOf opfRel) (xp opfXml) (manifestMapOf (xp opfXml))
        (spineOf (xp opfXml) (manifestMapOf (xp opfXml)) (opfDirOf opfRel)) = .ok base ∧
      m = { title := titleOf (xp opfXml),
            opfPath := opfRel,
            spine := spineOf (xp opfXml) (manifestMapOf (xp opfXml)) (opfDirOf opfRel),
            chapters :=
              if base.length <
                  (spineOf (xp opfXml) (manifestMapOf (xp opfXml)) (opfDirOf opfRel)).length then
                mergeChaptersWithSpine fs root
                  (spineOf (xp opfXml) (manifestMapOf (xp opfXml)) (opfDirOf opfRel)) base
              else base,
            coverHref := extractCoverHref fs root (opfDirOf opfRel) (xp opfXml)
              (manifestMapOf (xp opfXml))
              (spineOf (xp opfXml) (manifestMapOf (xp opfXml)) (opfDirOf opfRel)),
            vertical := detectVertical fs root
              (spineOf (xp opfXml) (manifestMapOf (xp opfXml)) (opfDirOf opfRel)) opfRel } := by
  unfold parseOpf at h
  split at h
  · cases h
  · rename_i opfAbs heq1
    split at h
    · cases h
    · rename_i opfXml heq2
      simp only [] at h
      split at h
      · cases h
      · rename_i hsp
        split at h
        · cases h
        · rename_i base heq3
          refine ⟨opfAbs, opfXml, base, heq1, heq2, ?_, heq3, ?_⟩
          · simpa using hsp
          · cases h
            rfl

theorem parseOpf_emptySpine {xp : String → JVal} {fs : FS} {root opfRel opfAbs opfXml : String}
    (h1 : safeJoin root opfRel = .ok opfAbs)
    (h2 : readFS? fs opfAbs = some opfXml)
    (h3 : spineOf (xp opfXml) (manifestMapOf (xp opfXml)) (opfDirOf opfRel) = []) :
    parseOpf xp fs root opfRel = .error .emptySpine := by
  unfold parseOpf
  rw [h1]
  dsimp only
  rw [h2]
  simp [h3]

theorem parseOpf_error_emptySpine {xp : String → JVal} {fs : FS}
    {root opfRel opfAbs opfXml : String}
    (h1 : safeJoin root opfRel = .ok opfAbs)
    (h2 : readFS? fs opfAbs = some opfXml)
    (h : parseOpf xp fs root opfRel = .error .emptySpine) :
    spineOf (xp opfXml) (manifestMapOf (xp opfXml)) (opfDirOf opfRel) = [] := by
  unfold parseOpf at h
  rw [h1] at h
  dsimp only at h
  rw [h2] at h
  dsimp only at h
  split at h
  · rename_i hs
    exact List.isEmpty_iff.1 hs
  · split at h
    · rename_i e2 heq
      cases h
      exact absurd (extractChapters_error_eq heq) (by intro hx; cases hx)
    · cases h

/-! ## Adequacy of the fuel bounds for the `JVal` recursions -/

theorem jsize_pos (v : JVal) : 1 ≤ jsize v := by
  cases v <;> simp [jsize]

theorem jGetO_jsize_le : ∀ (fs : JObj) (k : String), jsize (jGetO fs k) ≤ jsizeO fs
  | .nil, _ => by simp [jGetO, jsize, jsizeO]
  | .cons k2 v tl, k => by
    simp only [jGetO]
    split
    · simp only [jsizeO]
      exact le_max_left _ _
    · exact le_trans (jGetO_jsize_le tl k)
        (by simp only [jsizeO]; exact le_max_right _ _)

theorem jOr_jsize_le {a b : JVal} {n : Nat} (ha : jsize a ≤ n) (hb : jsize b ≤ n) :
    jsize (jOr a b) ≤ n := by
  unfold jOr
  split <;> assumption

theorem keyText_jsize_le (fs : JObj) : jsize (keyText fs) ≤ jsizeO fs := by
  unfold keyText
  have h0 : jsize JVal.null ≤ jsizeO fs := by
    have h1 := jGetO_jsize_le JObj.nil "x"
    simp [jGetO, jsizeO] at h1
    cases fs with
    | nil => simp [jsize, jsizeO]
    | cons k v tl =>
      simp only [jsize, jsizeO]
      have := jsize_pos v
      exact le_trans this (le_max_left _ _)
  exact jOr_jsize_le (jGetO_jsize_le fs _)
    (jOr_jsize_le (jGetO_jsize_le fs _)
      (jOr_jsize_le (jGetO_jsize_le fs _) (jGetO_jsize_le fs _)))

theorem asTextF_congr :
    ∀ (n : Nat) (v : JVal), jsize v ≤ n →
      ∀ f1 f2, jsize v ≤ f1 → jsize v ≤ f2 → asTextF f1 v = asTextF f2 v := by
  intro n
  induction n using Nat.strong_induction_on with
  | _ n ih =>
    intro v hn f1 f2 h1 h2
    have hp := jsize_pos v
    cases f1 with
    | zero => omega
    | succ g1 =>
      cases f2 with
      | zero => omega
      | succ g2 =>
        cases v with
        | null => rfl
        | str s => rfl
        | num k => rfl
        | arr xs =>
          cases xs with
          | nil => rfl
          | cons x tl =>
            show asTextF g1 x = asTextF g2 x
            have hx : jsize x < jsize (JVal.arr (.cons x tl)) := by
              simp only [jsize, jsizeA]
              exact Nat.lt_succ_of_le (le_max_left _ _)
            exact ih (jsize x) (by omega) x le_rfl g1 g2 (by omega) (by omega)
        | obj fso =>
          show asTextF g1 (keyText fso) = asTextF g2 (keyText fso)
          have hk : jsize (keyText fso) < jsize (JVal.obj fso) := by
            have := keyText_jsize_le fso
            simp only [jsize]
            omega
          exact ih (jsize (keyText fso)) (by omega) (keyText fso) le_rfl g1 g2
            (by omega) (by omega)

/-- Any fuel at least `jsize v` computes the same value as `asText`: the
fueled embedding never runs out of fuel. -/
theorem asTextF_mono {fuel : Nat} {v : JVal} (h : jsize v ≤ fuel) :
    asTextF fuel v = asText v :=
  asTextF_congr (jsize v) v le_rfl fuel (jsize v) h le_rfl

theorem jsize_toList_le : ∀ (xs : JArr) (c : JVal), c ∈ xs.toList → jsize c ≤ jsizeA xs
  | .nil, c, h => by simp [JArr.toList] at h
  | .cons hd tl, c, h => by
    simp only [JArr.toList, List.mem_cons] at h
    rcases h with h | h
    · subst h
      simp only [jsizeA]
      exact le_max_left _ _
    · exact le_trans (jsize_toList_le tl c h)
        (by simp only [jsizeA]; exact le_max_right _ _)

theorem jsize_toArr_le {v c : JVal} (h : c ∈ toArr v) : jsize c ≤ jsize v := by
  unfold toArr at h
  split at h
  · rename_i xs
    exact le_trans (jsize_toList_le xs c h) (by simp only [jsize]; omega)
  · simp only [List.mem_singleton] at h
    subst h
    exact le_rfl

theorem jsize_childList_lt {np c : JVal} (h : c ∈ childList np) : jsize c < jsize np := by
  unfold childList at h
  by_cases hn : (np.get "navPoint").isNull = true
  · rw [jOr, if_pos hn] at h
    simp [jarr, toArr, JArr.toList] at h
  · rw [jOr, if_neg hn] at h
    have hle := jsize_toArr_le h
    cases np with
    | obj fso =>
      have hg : jsize (JVal.get (.obj fso) "navPoint") ≤ jsizeO fso := jGetO_jsize_le fso _
      calc jsize c ≤ jsize (JVal.get (.obj fso) "navPoint") := hle
        _ ≤ jsizeO fso := hg
        _ < jsize (JVal.obj fso) := by simp only [jsize]; omega
    | null => exact absurd rfl hn
    | str s => exact absurd rfl hn
    | num k => exact absurd rfl hn
    | arr xs => exact absurd rfl hn

theorem ncxWalkF_congr (opfDir : String) :
    ∀ (n : Nat) (np : JVal), jsize np ≤ n →
      ∀ f1 f2, jsize np ≤ f1 → jsize np ≤ f2 →
        ncxWalkF opfDir f1 np = ncxWalkF opfDir f2 np := by
  intro n
  induction n using Nat.strong_induction_on with
  | _ n ih =>
    intro np hn f1 f2 h1 h2
    have hp := jsize_pos np
    cases f1 with
    | zero => omega
    | succ g1 =>
      cases f2 with
      | zero => omega
      | succ g2 =>
        show _ ++ _ = _ ++ _
        congr 1
        refine congrArg List.flatten (List.map_congr_left ?_)
        intro c hc
        have hlt := jsize_childList_lt hc
        by_cases ht : jTruthy c = true
        · simp only [ht, if_pos]
          exact ih (jsize c) (by omega) c le_rfl g1 g2 (by omega) (by omega)
        · simp only [ht]
          rfl

/-- Any fuel at least `jsize np` computes the same value as `ncxWalk`: the
fueled NCX tree walk never runs out of fuel. -/
theorem ncxWalkF_mono (opfDir : String) {fuel : Nat} {np : JVal} (h : jsize np ≤ fuel) :
    ncxWalkF opfDir fuel np = ncxWalk opfDir np :=
  ncxWalkF_congr opfDir (jsize np) np le_rfl fuel (jsize np) h le_rfl

/-! ## Spec-side notions (for refinement statements) -/

/-- Modelled from the spec: a resolved path is contained within `root` when
it is the root itself or lies below it as a `/`-separated descendant — not
merely a string extension of the root. -/
def isWithinRoot (root p : String) : Bool :=
  p = root || strStartsWith p (root ++ "/")

/-- Modelled from the spec: "scan for the first embedded image reference
(raster or vector) in document order" — at each position, an `<img ... src>`
reference or an `<image ... xlink:href/href>` reference, whichever occurs
first. -/
def firstImageRef : List Char → Option String
  | [] => none
  | c :: ts =>
    match (if ciStarts "<img".toList (c :: ts) then imgAt ((c :: ts).drop 4) else none) with
    | some v => some v
    | none =>
      match (if ciStarts "<image".toList (c :: ts) then imageAt ((c :: ts).drop 6) else none) with
      | some v => some v
      | none => firstImageRef ts

/-- Modelled from the spec: tier-3's "attempt to read the target document
and extract its page-title text" — the fragment-stripped spine href read
through the path guard, `none` when unreadable. -/
def pageTitleOf (fs : FS) (root href : String) : Option String :=
  match safeJoin root (stripFrag href) with
  | .error _ => none
  | .ok abs =>
    match readFS? fs abs with
    | none => none
    | some html => (matchTitleTag html).map stripTags

/-- Modelled from the spec: the tier-3 chapter title for the spine entry at
0-based index `i` — the page-title text; if unreadable or empty, the base
name with the extension stripped; if still empty, `"Chapter {i+1}"`. -/
def specChapterTitle (fs : FS) (root : String) (i : Nat) (href : String) : String :=
  match pageTitleOf fs root href with
  | some t => if t.isEmpty then chapterFallback i href (stripFrag href) else t
  | none => chapterFallback i href (stripFrag href)

/-! ## Concrete packages used as witnesses and counterexamples -/

/-- Package A: one-chapter package with an ordinary title; chapters come from
tier-3 scraping. -/
def jsonA : JVal := jobj [("package", jobj [
  ("metadata", jobj [("dc:title", .str "My Book")]),
  ("manifest", jobj [("item", jobj [("@_id", .str "a"), ("@_href", .str "ch1.xhtml")])]),
  ("spine", jobj [("itemref", jobj [("@_idref", .str "a")])])])]

def xpA : String → JVal := fun s => if s = "OPFA" then jsonA else .null

def fsA : FS := [("/b/content.opf", "OPFA"), ("/b/ch1.xhtml", "<title>One</title>")]

def manifestA : BookManifest :=
  { title := "My Book", opfPath := "content.opf", spine := ["ch1.xhtml"],
    chapters := [{ title := "One", href := "ch1.xhtml" }], coverHref := none,
    vertical := false }

/-- Package D3: a legacy NCX TOC with two entries over a one-entry spine. -/
def json3 : JVal := jobj [("package", jobj [
  ("manifest", jobj [("item", jarr [
     jobj [("@_id", .str "c1"), ("@_href", .str "c1.x")],
     jobj [("@_id", .str "n"), ("@_href", .str "toc.ncx")]])]),
  ("spine", jobj [("@_toc", .str "n"), ("itemref", jobj [("@_idref", .str "c1")])])])]

def ncx3 : JVal := jobj [("ncx", jobj [("navMap", jobj [("navPoint", jarr [
  jobj [("navLabel", jobj [("text", .str "One")]),
        ("content", jobj [("@_src", .str "c1.x")])],
  jobj [("navLabel", jobj [("text", .str "Two")]),
        ("content", jobj [("@_src", .str "c2.x")])]])])])]

def xp3 : String → JVal :=
  fun s => if s = "OPF3" then json3 else if s = "NCX3" then ncx3 else .null

def fs3 : FS := [("/b/content.opf", "OPF3"), ("/b/toc.ncx", "NCX3"), ("/b/c1.x", "<p>x</p>")]

def manifest3 : BookManifest :=
  { title := "Untitled", opfPath := "content.opf", spine := ["c1.x"],
    chapters := [{ title := "One", href := "c1.x" }, { title := "Two", href := "c2.x" }],
    coverHref := none, vertical := false }

/-- Package D4: the metadata title element is present but its text is the
empty string. -/
def json4 : JVal := jobj [("package", jobj [
  ("metadata", jobj [("dc:title", .str "")]),
  ("manifest", jobj [("item", jobj [("@_id", .str "a"), ("@_href", .str "ch1.xhtml")])]),
  ("spine", jobj [("itemref", jobj [("@_idref", .str "a")])])])]

def xp4 : String → JVal := fun s => if s = "OPF4" then json4 else .null

def fs4 : FS := [("/b/content.opf", "OPF4"), ("/b/ch1.xhtml", "<title>One</title>")]

def manifest4 : BookManifest :=
  { title := "", opfPath := "content.opf", spine := ["ch1.xhtml"],
    chapters := [{ title := "One", href := "ch1.xhtml" }], coverHref := none,
    vertical := false }

/-- Package D2: the single manifest href climbs out of the book root; it is
stored verbatim in the manifest even though the path guard rejects it. -/
def json2 : JVal := jobj [("package", jobj [
  ("manifest", jobj [("item", jobj [("@_id", .str "a"), ("@_href", .str "../x.html")])]),
  ("spine", jobj [("itemref", jobj [("@_idref", .str "a")])])])]

def xp2 : String → JVal := fun s => if s = "OPF2" then json2 else .null

def fs2 : FS := [("/b/content.opf", "OPF2")]

def manifest2 : BookManifest :=
  { title := "Untitled", opfPath := "content.opf", spine := ["../x.html"],
    chapters := [{ title := "x", href := "../x.html" }], coverHref := none,
    vertical := false }

/-- Package D8: the first spine document holds a vector `<image>` reference
before a raster `<img>` reference. -/
def json8 : JVal := jobj [("package", jobj [
  ("manifest", jobj [("item", jobj [("@_id", .str "a"), ("@_href", .str "d.x")])]),
  ("spine", jobj [("itemref", jobj [("@_idref", .str "a")])])])]

def doc8 : String := "<p><image href=\"v.svg\"/><img src=\"r.jpg\"/></p>"

def fs8 : FS := [("/b/content.opf", "OPF8"), ("/b/d.x", doc8)]

/-- Package D9: a package document declaring right-to-left page progression,
with a first spine document carrying no signal. -/
def fs9 : FS :=
  [("/b/o.opf", "<spine page-progression-direction=\"rtl\"/>"), ("/b/d.x", "<p>hi</p>")]

/-- A cover package: an EPUB2 metadata cover entry naming a manifest item. -/
def jsonCov : JVal := jobj [("package", jobj [
  ("metadata", jobj [("meta", jobj [("@_name", .str "cover"), ("@_content", .str "cv")])]),
  ("manifest", jobj [("item", jobj [("@_id", .str "cv"), ("@_href", .str "cov.jpg")])])])]

/-! ## Claim theorems -/

/-- Claim C1 (code bug). The spec says `PathGuard.resolve` either returns a
path contained within the root or fails, and that
`resolve(root, "../../etc/passwd")` always fails with `PathTraversalError`.
The code's containment check is a raw string-prefix test
(`resolved.startsWith(baseAbs)`): against the root `"/e"` the resolved path
`"/etc/passwd"` passes the prefix test, so `safeJoin` returns a path outside
the root instead of failing. -/
theorem C1_safeJoin_prefix_bug :
    safeJoin "/e" "../../etc/passwd" = .ok "/etc/passwd" ∧
    isWithinRoot "/e" "/etc/passwd" = false :=
  ⟨rfl, rfl⟩

/-- Claim C2 (counterexample). A successfully produced manifest stores the
spine/chapter href `"../x.html"` even though path-safety resolution of that
href against the package root fails — the href never passed (and could not
pass) `safeJoin`. -/
theorem C2_counterexample_unguarded_href :
    parseOpf xp2 fs2 "/b" "content.opf" = .ok manifest2 ∧
    manifest2.spine = ["../x.html"] ∧
    manifest2.chapters = [{ title := "x", href := "../x.html" }] ∧
    safeJoin "/b" "../x.html" = .error .traversal :=
  ⟨rfl, rfl, rfl, rfl⟩

/-- Claim C2 (amended): of the paths stored in a produced manifest, only the
package-document path (`opfPath`) is guaranteed to have passed path-safety
resolution; the hrefs in `spine`, `chapters` and `coverHref` are stored
without being passed through `safeJoin`. -/
theorem C2_opfPath_guarded {xp : String → JVal} {fs : FS} {root opfRel : String}
    {m : BookManifest} (h : parseOpf xp fs root opfRel = .ok m) :
    ∃ opfAbs, safeJoin root m.opfPath = .ok opfAbs := by
  obtain ⟨opfAbs, opfXml, base, h1, _, _, _, hm⟩ := parseOpf_ok_elim h
  refine ⟨opfAbs, ?_⟩
  rw [hm]
  exact h1

theorem C2_opfPath_guarded_witness :
    ∃ opfAbs, safeJoin "/b" manifestA.opfPath = .ok opfAbs :=
  @C2_opfPath_guarded xpA fsA "/b" "content.opf" manifestA rfl

/-- Claim C6: when the legacy NCX tier yields at least one entry, the chapter
extractor returns exactly those entries — the navigation-document tier and
the per-document-scraping tier are not consulted. -/
theorem C6_tier1_precedence {xp : String → JVal} {fs : FS} {root opfDir : String}
    {json : JVal} {mm : List (String × Item)} (spine : List String) {t1 : List Chapter}
    (h : ncxChapters xp fs root opfDir json mm = .ok t1) (hne : t1 ≠ []) :
    extractChapters xp fs root opfDir json mm spine = .ok t1 := by
  have he : t1.isEmpty = false := by
    cases t1 with
    | nil => exact absurd rfl hne
    | cons a l => rfl
  unfold extractChapters
  rw [h]
  simp [he]

theorem C6_tier1_precedence_witness :
    extractChapters xp3 fs3 "/b" "" json3 (manifestMapOf json3) ["c1.x"] =
      .ok [{ title := "One", href := "c1.x" }, { title := "Two", href := "c2.x" }] :=
  C6_tier1_precedence ["c1.x"] rfl (by decide)

/-- Claim C9: for a truthy (nonempty) first spine entry — spine entries
produced by `parseOpf` are always nonempty — a right-to-left page-progression
declaration in the (readable, guard-passing) package document makes
`detectVertical` return `true`, whatever the first spine document contains;
when neither the first spine document nor the package document carries a
signal the result is `false` (also for a falsy first entry, which the source
rejects outright). The embedding gives `detectVertical` the total type
`Bool`: every read failure inside it is caught, so the detector never
fails. -/
theorem C9_detectVertical_signals (fs : FS) (root first opfRel : String)
    (rest : List String) :
    (first.isEmpty = false →
      ∀ opfAbs opfXml, safeJoin root opfRel = .ok opfAbs →
      readFS? fs opfAbs = some opfXml → hasRtlAttr opfXml = true →
      detectVertical fs root (first :: rest) opfRel = true) ∧
    (docVerticalSignal fs root first = false → opfRtlSignal fs root opfRel = false →
      detectVertical fs root (first :: rest) opfRel = false) := by
  constructor
  · intro hf opfAbs opfXml h1 h2 h3
    unfold detectVertical
    dsimp only
    rw [hf]
    simp only [Bool.false_eq_true, if_false]
    by_cases hd : docVerticalSignal fs root first = true
    · rw [if_pos hd]
    · rw [if_neg hd]
      unfold opfRtlSignal
      rw [h1]
      dsimp only
      rw [h2]
      exact h3
  · intro hd ho
    unfold detectVertical
    dsimp only
    by_cases hf : first.isEmpty = true
    · rw [hf]
      simp
    · rw [Bool.of_not_eq_true hf]
      simp only [Bool.false_eq_true, if_false]
      rw [hd]
      simpa using ho

theorem C9_detectVertical_witness :
    detectVertical fs9 "/b" ["d.x"] "o.opf" = true :=
  (C9_detectVertical_signals fs9 "/b" "d.x" "o.opf" []).1 rfl "/b/o.opf"
    "<spine page-progression-direction=\"rtl\"/>" rfl rfl rfl

/-- Claim C10: whenever the merge step runs, every merged entry carries the
spine href verbatim (any URL fragment included); a matching discovered entry
contributes only its title — the first nonempty title among discovered
entries sharing the fragment-stripped href — never its own href. -/
theorem C10_merge_preserves_spine_hrefs (fs : FS) (root : String) (spine : List String)
    (chapters : List Chapter) :
    (mergeChaptersWithSpine fs root spine chapters).map Chapter.href = spine ∧
    (∀ (i : Nat) (href t : String), spine[i]? = some href →
      firstTitleFor chapters (stripFrag href) = some t →
      (mergeChaptersWithSpine fs root spine chapters)[i]? =
        some { title := t, href := href }) :=
  ⟨merge_map_href fs root spine chapters, fun _ _ _ h1 h2 => merge_getElem? h1 h2⟩

theorem C10_merge_witness :
    (mergeChaptersWithSpine [] "/b" ["a.x#f1"] [{ title := "T1", href := "a.x" }])[0]? =
      some { title := "T1", href := "a.x#f1" } :=
  (C10_merge_preserves_spine_hrefs [] "/b" ["a.x#f1"] [{ title := "T1", href := "a.x" }]).2
    0 "a.x#f1" "T1" rfl rfl

theorem asText_str (s : String) : asText (JVal.str s) = some s := by
  unfold asText
  rw [show jsize (JVal.str s) = 1 from by simp [jsize]]
  rfl

/-- Claim C3 (counterexample): a package with a one-entry spine whose legacy
TOC yields two chapters parses successfully with two chapters against one
spine entry — the merge step only runs when fewer chapters than spine entries
were discovered, so the counts diverge. -/
theorem C3_counterexample_more_chapters :
    parseOpf xp3 fs3 "/b" "content.opf" = .ok manifest3 ∧
    manifest3.chapters.length ≠ manifest3.spine.length :=
  ⟨rfl, by decide⟩

/-- Claim C3 (amended): every successfully parsed package has a nonempty
spine and at least as many chapters as spine entries; whenever the discovered
chapter list has fewer entries than the spine — in particular whenever no TOC
tier discovered anything — there is exactly one chapter per spine entry, in
spine order (the chapter hrefs are the spine). -/
theorem C3_chapter_count {xp : String → JVal} {fs : FS}
    {root opfRel opfAbs opfXml : String} {m : BookManifest}
    (h1 : safeJoin root opfRel = .ok opfAbs)
    (h2 : readFS? fs opfAbs = some opfXml)
    (h : parseOpf xp fs root opfRel = .ok m) :
    m.spine ≠ [] ∧
    m.spine.length ≤ m.chapters.length ∧
    (∀ base, extractChapters xp fs root (opfDirOf opfRel) (xp opfXml)
        (manifestMapOf (xp opfXml)) m.spine = .ok base →
      base.length < m.spine.length → m.chapters.map Chapter.href = m.spine) := by
  obtain ⟨opfAbs2, opfXml2, base0, g1, g2, g3, g4, gm⟩ := parseOpf_ok_elim h
  rw [h1] at g1
  injection g1 with g1
  subst g1
  rw [h2] at g2
  injection g2 with g2
  subst g2
  subst gm
  dsimp only at g3 g4 ⊢
  refine ⟨?_, ?_, ?_⟩
  · intro hh
    rw [hh] at g3
    cases g3
  · by_cases hlt : base0.length <
        (spineOf (xp opfXml) (manifestMapOf (xp opfXml)) (opfDirOf opfRel)).length
    · rw [if_pos hlt, merge_length]
    · rw [if_neg hlt]
      omega
  · intro base hext hlt
    rw [g4] at hext
    injection hext with hext
    subst hext
    rw [if_pos hlt]
    exact merge_map_href _ _ _ _

theorem C3_chapter_count_witness :
    manifestA.spine ≠ [] ∧
    manifestA.spine.length ≤ manifestA.chapters.length ∧
    (∀ base, extractChapters xpA fsA "/b" (opfDirOf "content.opf") (xpA "OPFA")
        (manifestMapOf (xpA "OPFA")) manifestA.spine = .ok base →
      base.length < manifestA.spine.length →
      manifestA.chapters.map Chapter.href = manifestA.spine) :=
  @C3_chapter_count xpA fsA "/b" "content.opf" "/b/content.opf" "OPFA" manifestA rfl rfl rfl

/-- Claim C4 (counterexample): a present title element whose text is the
empty string produces the manifest title `""`, not `"Untitled"`: `asText`
returns the empty string (JS `String("")`), which is not nullish, so the
`?? "Untitled"` fallback is not taken. -/
theorem C4_counterexample_empty_title :
    parseOpf xp4 fs4 "/b" "content.opf" = .ok manifest4 ∧
    jStrAny? (((json4.get "package").get "metadata").get "dc:title") = some "" ∧
    manifest4.title ≠ "Untitled" :=
  ⟨rfl, rfl, by decide⟩

/-- Claim C4 (amended): the manifest title is the `asText` coercion of the
first metadata title entry (`dc:title`, else `title`, else the literal
`"Untitled"`), with `"Untitled"` substituted only when the coercion yields
nothing; an absent title element yields `"Untitled"`, while a present title
element holding a string — including the empty string — is returned
verbatim. -/
theorem C4_title_coercion {xp : String → JVal} {fs : FS}
    {root opfRel opfAbs opfXml : String} {m : BookManifest}
    (h1 : safeJoin root opfRel = .ok opfAbs)
    (h2 : readFS? fs opfAbs = some opfXml)
    (h : parseOpf xp fs root opfRel = .ok m) :
    m.title = (asText (jOr ((((xp opfXml).get "package").get "metadata").get "dc:title")
      (jOr ((((xp opfXml).get "package").get "metadata").get "title")
        (.str "Untitled")))).getD "Untitled" ∧
    ((((xp opfXml).get "package").get "metadata").get "dc:title" = JVal.null →
      (((xp opfXml).get "package").get "metadata").get "title" = JVal.null →
      m.title = "Untitled") ∧
    (∀ s, (((xp opfXml).get "package").get "metadata").get "dc:title" = JVal.str s →
      m.title = s) := by
  obtain ⟨opfAbs2, opfXml2, base0, g1, g2, g3, g4, gm⟩ := parseOpf_ok_elim h
  rw [h1] at g1
  injection g1 with g1
  subst g1
  rw [h2] at g2
  injection g2 with g2
  subst g2
  subst gm
  dsimp only
  refine ⟨rfl, ?_, ?_⟩
  · intro hd ht
    simp only [titleOf]
    rw [hd, ht]
    rfl
  · intro s hs
    simp only [titleOf]
    rw [hs]
    show (asText (JVal.str s)).getD "Untitled" = s
    rw [asText_str]
    rfl

theorem C4_title_coercion_witness :
    manifestA.title = (asText (jOr ((((xpA "OPFA").get "package").get "metadata").get "dc:title")
      (jOr ((((xpA "OPFA").get "package").get "metadata").get "title")
        (.str "Untitled")))).getD "Untitled" ∧
    (((((xpA "OPFA").get "package").get "metadata").get "dc:title") = JVal.null →
      ((((xpA "OPFA").get "package").get "metadata").get "title") = JVal.null →
      manifestA.title = "Untitled") ∧
    (∀ s, ((((xpA "OPFA").get "package").get "metadata").get "dc:title") = JVal.str s →
      manifestA.title = s) :=
  @C4_title_coercion xpA fsA "/b" "content.opf" "/b/content.opf" "OPFA" manifestA rfl rfl rfl

/-- Claim C5: the resolved spine is exactly the spec's single-pass resolution
of the declared item-references through the manifest table (unresolved
references skipped, hrefs resolved against the package-document directory
with separators normalized); a successful parse carries exactly this spine;
and — for a readable, guard-passing package document — `parseOpf` fails with
`EmptySpineError` precisely when this resolved sequence is empty (the
`Except` result means no partial manifest is produced on the error path). -/
theorem C5_spine_resolution (xp : String → JVal) (fs : FS)
    (root opfRel opfAbs opfXml : String)
    (h1 : safeJoin root opfRel = .ok opfAbs)
    (h2 : readFS? fs opfAbs = some opfXml) :
    spineOf (xp opfXml) (manifestMapOf (xp opfXml)) (opfDirOf opfRel) =
      specSpine (xp opfXml) (manifestMapOf (xp opfXml)) (opfDirOf opfRel) ∧
    (∀ m, parseOpf xp fs root opfRel = .ok m →
      m.spine = spineOf (xp opfXml) (manifestMapOf (xp opfXml)) (opfDirOf opfRel)) ∧
    (parseOpf xp fs root opfRel = .error .emptySpine ↔
      spineOf (xp opfXml) (manifestMapOf (xp opfXml)) (opfDirOf opfRel) = []) := by
  refine ⟨spineOf_eq_specSpine (xp opfXml) (opfDirOf opfRel), ?_, ?_, ?_⟩
  · intro m h
    obtain ⟨opfAbs2, opfXml2, base0, g1, g2, g3, g4, gm⟩ := parseOpf_ok_elim h
    rw [h1] at g1
    injection g1 with g1
    subst g1
    rw [h2] at g2
    injection g2 with g2
    subst g2
    rw [gm]
  · intro h
    exact parseOpf_error_emptySpine h1 h2 h
  · intro h
    exact parseOpf_emptySpine h1 h2 h

theorem C5_spine_resolution_witness :
    spineOf (xpA "OPFA") (manifestMapOf (xpA "OPFA")) (opfDirOf "content.opf") =
      specSpine (xpA "OPFA") (manifestMapOf (xpA "OPFA")) (opfDirOf "content.opf") ∧
    (∀ m, parseOpf xpA fsA "/b" "content.opf" = .ok m →
      m.spine = spineOf (xpA "OPFA") (manifestMapOf (xpA "OPFA")) (opfDirOf "content.opf")) ∧
    (parseOpf xpA fsA "/b" "content.opf" = .error .emptySpine ↔
      spineOf (xpA "OPFA") (manifestMapOf (xpA "OPFA")) (opfDirOf "content.opf") = []) :=
  C5_spine_resolution xpA fsA "/b" "content.opf" "/b/content.opf" "OPFA" rfl rfl

theorem specChapterTitle_ne_empty (fs : FS) (root : String) (i : Nat) (href : String) :
    specChapterTitle fs root i href ≠ "" := by
  unfold specChapterTitle
  split
  · rename_i t _
    split
    · exact chapterFallback_ne_empty i href (stripFrag href)
    · rename_i hte
      exact strne_of_isEmpty_false (Bool.of_not_eq_true hte)
  · exact chapterFallback_ne_empty i href (stripFrag href)

/-- Claim C7: tier-3 per-document scraping yields exactly one entry per spine
item, in spine order, each carrying the spine href verbatim; each title is
computed by the spec's per-document rule — page-title text, else the base
name with extension stripped, else `"Chapter N"` (1-based) — and is never
empty. -/
theorem C7_scraping_per_spine (fs : FS) (root : String) (spine : List String) :
    (scrapeChapters fs root spine).map Chapter.href = spine ∧
    scrapeChapters fs root spine =
      spine.enum.map (fun p => { title := specChapterTitle fs root p.1 p.2, href := p.2 }) ∧
    (∀ c ∈ scrapeChapters fs root spine, c.title ≠ "") := by
  have heq : scrapeChapters fs root spine =
      spine.enum.map (fun p => { title := specChapterTitle fs root p.1 p.2, href := p.2 }) := by
    unfold scrapeChapters specChapterTitle pageTitleOf
    rfl
  refine ⟨scrape_map_href fs root spine, heq, ?_⟩
  intro c hc
  rw [heq] at hc
  obtain ⟨p, _, hpc⟩ := List.mem_map.1 hc
  rw [← hpc]
  exact specChapterTitle_ne_empty fs root p.1 p.2

theorem C7_scraping_witness :
    ({ title := "One", href := "ch1.xhtml" } : Chapter).title ≠ "" :=
  (C7_scraping_per_spine fsA "/b" ["ch1.xhtml"]).2.2
    { title := "One", href := "ch1.xhtml" } (by decide)

/-- Claim C8 (counterexample): with no cover metadata entry and no flagged
cover item, a first spine document whose first embedded image reference in
document order is the vector `<image href="v.svg"/>` still resolves the
cover to the later `<img src="r.jpg"/>`: the `<img src>` pattern is matched
over the whole document before `<image>` is ever consulted. -/
theorem C8_counterexample_img_before_image :
    extractCoverHref fs8 "/b" "" json8 (manifestMapOf json8) ["d.x"] = some "r.jpg" ∧
    firstImageRef doc8.toList = some "v.svg" ∧
    ("r.jpg" : String) ≠ "v.svg" :=
  ⟨rfl, rfl, by decide⟩

/-- Claim C8 (amended): the cover resolves through, in order: a metadata
cover entry whose content names a manifest item with a truthy href; the
`cover-image`-flagged manifest item; then — reading the first spine document
through the path guard — the first `<img src>` reference anywhere in the
document, and only failing that the first `<image xlink:href/href>`
reference; an empty spine (with nothing found earlier) yields no value, not
an error. -/
theorem C8_cover_tiers (fs : FS) (root opfDir : String) (json : JVal)
    (mm : List (String × Item)) (spine : List String) :
    (∀ h, coverFromMeta? opfDir ((json.get "package").get "metadata") mm = some h →
      extractCoverHref fs root opfDir json mm spine = some h) ∧
    (coverFromMeta? opfDir ((json.get "package").get "metadata") mm = none →
      ∀ h, coverImageItemHref? mm = some h →
      extractCoverHref fs root opfDir json mm spine = some (normalizeHref opfDir h)) ∧
    (coverFromMeta? opfDir ((json.get "package").get "metadata") mm = none →
      coverImageItemHref? mm = none →
      ∀ first rest abs html, spine = first :: rest →
        safeJoin root (stripFrag first) = .ok abs → readFS? fs abs = some html →
        extractCoverHref fs root opfDir json mm spine =
          (match matchImgSrc html <|> matchImageHref html with
           | some v => if v.isEmpty then none else some (normalizeHref opfDir v)
           | none => none)) ∧
    (coverFromMeta? opfDir ((json.get "package").get "metadata") mm = none →
      coverImageItemHref? mm = none → spine = [] →
      extractCoverHref fs root opfDir json mm spine = none) := by
  refine ⟨?_, ?_, ?_, ?_⟩
  · intro h hm
    unfold extractCoverHref
    dsimp only
    rw [hm]
  · intro h1 h hm
    unfold extractCoverHref
    dsimp only
    rw [h1, hm]
  · intro h1 h2 first rest abs html hs hj hr
    unfold extractCoverHref
    dsimp only
    rw [h1, h2, hs]
    dsimp only
    rw [hj]
    dsimp only
    rw [hr]
  · intro h1 h2 hs
    unfold extractCoverHref
    dsimp only
    rw [h1, h2, hs]

theorem C8_cover_tiers_witness :
    extractCoverHref [] "/b" "" jsonCov (manifestMapOf jsonCov) [] = some "cov.jpg" :=
  (C8_cover_tiers [] "/b" "" jsonCov (manifestMapOf jsonCov) []).1 "cov.jpg" rfl
